import Mathlib

/-!
# Verification of the openFDA Elasticsearch query builder

Shallow embedding of `src/api/faers/elasticsearch_query.js` and proofs about
it.  JavaScript strings are modelled as Lean `String` (a wrapper around
`List Char`); JS truthiness of a string is non-emptiness; optional parameters
are `Option String` (with `some ""` the present-but-falsy value).  The
external Elasticsearch client (the mapping-lookup collaborator) is modelled
as an oracle function, and the process-wide `node-cache` instance as explicit
state threaded through the functions.  The file is organised as definitions
first, theorems second.
-/

set_option autoImplicit false

/-! ## Definitions: query-string validator

The source validates with the regex
`^[&0-9a-zA-Z@%/',._:()"\[\]{}\-\+><= ]+$` (variable `SUPPORTED_QUERY_RE`).
A string matches iff it is non-empty and every character is in the class.
We express the character class over `Char.toNat` code points; the code-point
constants below are, in the order they appear in the regex source:
`&`(38) digits `0-9`(48..57) letters `a-z`(97..122) `A-Z`(65..90) `@`(64)
`%`(37) `/`(47) apostrophe(39) `,`(44) `.`(46) `_`(95) `:`(58) `(`(40)
`)`(41) double-quote(34) `[`(91) `]`(93) left-brace(123) right-brace(125)
`-`(45) `+`(43) `>`(62) `<`(60) `=`(61) space(32). -/

/-- One character of the regex character class of `SUPPORTED_QUERY_RE`. -/
def supportedChar (c : Char) : Bool :=
  let n := c.toNat
  decide ((38 = n) ∨ (48 ≤ n ∧ n ≤ 57) ∨ (97 ≤ n ∧ n ≤ 122) ∨ (65 ≤ n ∧ n ≤ 90) ∨
    n = 64 ∨ n = 37 ∨ n = 47 ∨ n = 39 ∨ n = 44 ∨ n = 46 ∨ n = 95 ∨ n = 58 ∨
    n = 40 ∨ n = 41 ∨ n = 34 ∨ n = 91 ∨ n = 93 ∨ n = 123 ∨ n = 125 ∨
    n = 45 ∨ n = 43 ∨ n = 62 ∨ n = 60 ∨ n = 61 ∨ n = 32)

/-- `exports.SupportedQueryString`: `new RegExp(SUPPORTED_QUERY_RE).test(query)`.
The anchored regex `^[...]+$` matches exactly the non-empty strings all of
whose characters belong to the class. -/
def SupportedQueryString (query : String) : Bool :=
  !query.data.isEmpty && query.data.all supportedChar

/-- The character set enumerated by the claim (spec wording): ASCII letters,
digits, the punctuation characters `. _ : ( ) " [ ] { } - + > < = , % & / '`
and the space character.  Note it does NOT contain `@`(64). -/
def claimedChar (c : Char) : Bool :=
  let n := c.toNat
  decide ((65 ≤ n ∧ n ≤ 90) ∨ (97 ≤ n ∧ n ≤ 122) ∨ (48 ≤ n ∧ n ≤ 57) ∨
    n = 46 ∨ n = 95 ∨ n = 58 ∨ n = 40 ∨ n = 41 ∨ n = 34 ∨ n = 91 ∨ n = 93 ∨
    n = 123 ∨ n = 125 ∨ n = 45 ∨ n = 43 ∨ n = 62 ∨ n = 60 ∨ n = 61 ∨
    n = 44 ∨ n = 37 ∨ n = 38 ∨ n = 47 ∨ n = 39 ∨ n = 32)

/-- The claim's character set amended with `@`(64), the character the regex
additionally accepts. -/
def amendedChar (c : Char) : Bool :=
  claimedChar c || decide (c.toNat = 64)

/-! ## Definitions: deprecated-clause rewriter

`exports.HandleDeprecatedClauses` is
`search.replace(/_missing_:("?[\w.]+"?)/g, "(NOT (_exists_:$1))")`.
We model the global regex replace as a left-to-right scan: at each position,
if the literal token `_missing_:` occurs and is followed by a match of the
greedy fragment `"?[\w.]+"?`, the whole occurrence is replaced by
`(NOT (_exists_:$1))` (where `$1` is the captured fragment) and scanning
resumes after the occurrence; otherwise one character is emitted unchanged. -/

/-- The double-quote character (code point 34). -/
def quoteC : Char := Char.ofNat 34

/-- A character of the regex class `[\w.]`: ASCII letters, digits, `_`(95)
and `.`(46). -/
def isWordDot (c : Char) : Bool :=
  c.isAlpha || c.isDigit || decide (c.toNat = 95) || decide (c.toNat = 46)

/-- The literal token `_missing_:` of the regex (10 characters). -/
def MISSING_TOKEN : List Char := "_missing_:".data

/-- The text before the captured group in the replacement `(NOT (_exists_:$1))`. -/
def REPL_OPEN : List Char := "(NOT (_exists_:".data

/-- The text after the captured group in the replacement `(NOT (_exists_:$1))`. -/
def REPL_CLOSE : List Char := "))".data

/-- Greedy match of the regex fragment `"?[\w.]+"?` at the head of `cs`, as
the JS engine matches it: an optional double quote, then a maximal non-empty
run of `[\w.]` characters, then an optional double quote.  Returns the
captured group `$1` together with the number of characters consumed, or
`none` when the fragment does not match here (backtracking over the leading
`"?` cannot help, since a quote is not a `[\w.]` character). -/
def matchFieldPath (cs : List Char) : Option (List Char × Nat) :=
  match cs with
  | [] => none
  | c :: rest =>
    if c == quoteC then
      let run := rest.takeWhile isWordDot
      if run.isEmpty then none
      else
        match rest.drop run.length with
        | d :: _ =>
          if d == quoteC then some (c :: (run ++ [d]), 1 + run.length + 1)
          else some (c :: run, 1 + run.length)
        | [] => some (c :: run, 1 + run.length)
    else
      let run := (c :: rest).takeWhile isWordDot
      if run.isEmpty then none
      else
        match (c :: rest).drop run.length with
        | d :: _ =>
          if d == quoteC then some (run ++ [d], run.length + 1)
          else some (run, run.length)
        | [] => some (run, run.length)

/-- The left-to-right global-replace scan of
`search.replace(/_missing_:("?[\w.]+"?)/g, "(NOT (_exists_:$1))")`. -/
def replaceMissingAux : List Char → List Char
  | [] => []
  | c :: rest =>
    if (c :: rest).take 10 == MISSING_TOKEN then
      match matchFieldPath ((c :: rest).drop 10) with
      | some (cap, n) =>
        REPL_OPEN ++ cap ++ REPL_CLOSE ++ replaceMissingAux ((c :: rest).drop (10 + n))
      | none => c :: replaceMissingAux rest
    else
      c :: replaceMissingAux rest
termination_by cs => cs.length
decreasing_by
  · simp only [List.length_drop, List.length_cons]
    omega
  · simp only [List.length_cons]
    omega
  · simp only [List.length_cons]
    omega

/-- `exports.HandleDeprecatedClauses`: rewrite every occurrence of the legacy
`_missing_:` operator followed by a (possibly quoted) field path into a
negated `_exists_:` expression. -/
def HandleDeprecatedClauses (search : String) : String :=
  ⟨replaceMissingAux search.data⟩

/-- The regex `/_missing_:("?[\w.]+"?)/` matches at the head of `cs`. -/
def matchesAt (cs : List Char) : Bool :=
  cs.take 10 == MISSING_TOKEN && (matchFieldPath (cs.drop 10)).isSome

/-- The suffix after a field path does not extend the regex match: its first
character (if any) is neither a `[\w.]` character nor a double quote. -/
def noExtend : List Char → Prop
  | [] => True
  | d :: _ => isWordDot d = false ∧ d ≠ quoteC

/-! ## Definitions: shared helpers for the sort and query builders -/

/-- The error-name constant `ELASTICSEARCH_QUERY_ERROR`. -/
def ELASTICSEARCH_QUERY_ERROR : String := "ElasticsearchQueryError"

/-- The plain objects `{name: ..., message: ...}` thrown by the builders. -/
structure JsError where
  name : String
  message : String
deriving DecidableEq, Repr

deriving instance DecidableEq for Except

/-- The caller-supplied parameter object.  Each recognized option is either
absent (`none`, JS `undefined`) or a string.  JS treats `""` as falsy. -/
structure QueryParams where
  search : Option String := none
  count : Option String := none
  sort : Option String := none
  limit : Option String := none
  search_after : Option String := none
deriving DecidableEq, Repr

/-- JS truthiness of an optional string parameter: present and non-empty. -/
def truthy : Option String → Bool
  | none => false
  | some s => !s.data.isEmpty

/-- The `escape-html` module used to echo untrusted input in error messages:
`&`(38), double quote(34), apostrophe(39), `<`(60), `>`(62) become HTML
entities, all other characters are kept. -/
def escapeHtmlChar (c : Char) : List Char :=
  if c.toNat = 38 then "&amp;".data
  else if c.toNat = 34 then "&quot;".data
  else if c.toNat = 39 then "&#39;".data
  else if c.toNat = 60 then "&lt;".data
  else if c.toNat = 62 then "&gt;".data
  else [c]

/-- `escape(s)` from the `escape-html` module. -/
def escapeHtml (s : String) : String :=
  ⟨s.data.foldr (fun c acc => escapeHtmlChar c ++ acc) []⟩

/-- JS `String.prototype.trim`: remove whitespace from both ends (modelled
for the ASCII whitespace characters covered by `Char.isWhitespace`). -/
def jsTrim (s : String) : String :=
  ⟨((s.data.dropWhile Char.isWhitespace).reverse.dropWhile Char.isWhitespace).reverse⟩

/-- JS `l.endsWith(pat)`: `pat` is a suffix of `l`. -/
def endsWithL (l pat : List Char) : Bool :=
  l.drop (l.length - pat.length) == pat

/-- `pat` occurs at the head of `l`. -/
def subAt (l pat : List Char) : Bool :=
  l.take pat.length == pat

/-- JS `l.indexOf(pat) != -1`: `pat` occurs somewhere in `l`. -/
def hasSub : List Char → List Char → Bool
  | [], pat => subAt [] pat
  | c :: rest, pat => subAt (c :: rest) pat || hasSub rest pat

/-- `params.sort.split(':')[0]`: the part of the sort expression before the
first `:` (the whole expression when there is no `:`). -/
def sortField (s : String) : String :=
  ⟨s.data.takeWhile (fun c => c != ':')⟩

/-- The characters of the literal `'exact'` searched by
`params.sort.indexOf('exact')`. -/
def EXACT_TOKEN : List Char := "exact".data

/-- The static array `DATE_FIELDS` of the source, in source order (including
the source's duplicated entries). -/
def DATE_FIELDS : List String := [
  "drugstartdate", "drugenddate", "patient.patientdeath.patientdeathdate",
  "patientdeathdate", "receiptdate", "receivedate", "transmissiondate",
  "report_date", "recall_initiation_date", "center_classification_date",
  "termination_date", "effective_time", "date_facility_aware",
  "date_manufacturer_received", "date_of_event", "date_received",
  "date_added", "date_changed", "date_report", "date_report_to_fda",
  "date_report_to_manufacturer", "date_returned_to_manufacturer",
  "device_date_of_manufacture", "baseline_date_ceased_marketing",
  "baseline_date_first_marketed", "expiration_date_of_device",
  "device_date_of_manufacturer", "products.created_date",
  "event_date_terminated", "event_date_initiated", "event_date_created",
  "event_date_posted", "decision_date", "fed_reg_notice_date",
  "package_discontinue_date", "publish_date", "public_version_date",
  "commercial_distribution_end_date", "identifiers.package_discontinue_date",
  "package_discontinue_date", "original_receive_date", "onset_date",
  "first_exposure_date", "last_exposure_date", "manufacturing_date",
  "lot_expiration", "drug.first_exposure_date", "drug.last_exposure_date",
  "drug.manufacturing_date", "drug.lot_expiration", "date_created",
  "date_started", "marketing_start_date", "marketing_end_date",
  "inactivation_date", "reactivation_date", "marketing_start_date",
  "marketing_end_date", "listing_expiration_date",
  "submissions.submission_status_date", "submissions.application_docs.date",
  "date_performed", "date_submitted"]

/-! ## Definitions: field-sortability cache -/

/-- The constant `SORTABLE_FIELD_TYPES`. -/
def SORTABLE_FIELD_TYPES : List String :=
  ["keyword", "short", "integer", "byte", "date"]

/-- One element of the array produced by
`jsonpath.query(response, '$..mapping.*')`: a mapping object whose `type`
property may be absent. -/
structure MappingEntry where
  type : Option String
deriving DecidableEq, Repr

/-- The outcome of `client.indices.getFieldMapping` followed by the jsonpath
extraction: either the call throws (`err`: network error or a response that
breaks extraction) or it yields the list of extracted mapping entries
(possibly empty when the index reports no mapping for the field). -/
inductive LookupResult where
  | err
  | ok (mappings : List MappingEntry)
deriving DecidableEq, Repr

/-- The external mapping-lookup collaborator: `(index, field) ↦ outcome`. -/
def MappingOracle := String → String → LookupResult

/-- The process-wide `fieldMappingCache` (a `node-cache` keyed by strings)
together with a count of metadata lookups issued so far. -/
structure CacheState where
  cache : List (String × Bool)
  lookups : Nat
deriving DecidableEq, Repr

/-- `fieldMappingCache.get(k)` / `fieldMappingCache.has(k)`. -/
def cacheGet (c : List (String × Bool)) (k : String) : Option Bool :=
  match c.find? (fun p => p.1 == k) with
  | some p => some p.2
  | none => none

/-- `fieldMappingCache.set(k, v)` (overwrites any entry with the same key). -/
def cacheSet (c : List (String × Bool)) (k : String) (v : Bool) : List (String × Bool) :=
  c.filter (fun p => !(p.1 == k)) ++ [(k, v)]

/-- `isFieldTypeAcceptableForSorting(field, index)`: issue the metadata
lookup; on an exception, log it and `fieldMappingCache.flushAll()` and return
`false`; on success return whether the first extracted mapping has a truthy
`type` contained in `SORTABLE_FIELD_TYPES` (false also when the extraction
yields no mapping entry). -/
def isFieldTypeAcceptableForSorting (oracle : MappingOracle) (field index : String)
    (st : CacheState) : Bool × CacheState :=
  let st1 : CacheState := { st with lookups := st.lookups + 1 }
  match oracle index field with
  | LookupResult.err => (false, { st1 with cache := [] })
  | LookupResult.ok mappings =>
    match mappings with
    | [] => (false, st1)
    | m :: _ =>
      match m.type with
      | some t => (!t.data.isEmpty && SORTABLE_FIELD_TYPES.contains t, st1)
      | none => (false, st1)

/-- `isSortableField(field, index)`: `false` without caching when `index` or
`field` is falsy; otherwise consult the cache under key `index + "." + field`
and on a miss store the result of `isFieldTypeAcceptableForSorting` (the
source then returns `fieldMappingCache.get(cacheKey)`, i.e. the value just
stored). -/
def isSortableField (oracle : MappingOracle) (field index : String)
    (st : CacheState) : Bool × CacheState :=
  if !index.data.isEmpty && !field.data.isEmpty then
    let cacheKey := index ++ "." ++ field
    match cacheGet st.cache cacheKey with
    | some v => (v, st)
    | none =>
      match isFieldTypeAcceptableForSorting oracle field index st with
      | (v, st1) => (v, { st1 with cache := cacheSet st1.cache cacheKey v })
  else
    (false, st)

/-! ## Definitions: sort builder -/

/-- `exports.BuildSort(params, index)`.  The returned triple is the JS
outcome (`ok` sort expression or thrown error), the parameter object as the
call leaves it (the source assigns `params.sort = params.sort.trim()`), and
the cache state.  The three validation steps mirror the source: character
whitelist on the trimmed expression; then the expression is accepted outright
when it contains `exact` anywhere (`indexOf('exact') == -1` test) or when some
`DATE_FIELDS` entry is a suffix of the field part; otherwise
`isSortableField` decides, and a negative answer throws. -/
def BuildSort (oracle : MappingOracle) (params : QueryParams) (index : String)
    (st : CacheState) : Except JsError String × QueryParams × CacheState :=
  match params.sort with
  | none => (Except.ok "_id", params, st)
  | some s0 =>
    if s0.data.isEmpty then
      (Except.ok "_id", params, st)
    else
      let s := jsTrim s0
      let params1 := { params with sort := some s }
      if !SupportedQueryString s then
        (Except.error ⟨ELASTICSEARCH_QUERY_ERROR, "Sort not supported: " ++ escapeHtml s⟩,
         params1, st)
      else
        let field := sortField s
        if hasSub s.data EXACT_TOKEN
            || DATE_FIELDS.any (fun f => endsWithL field.data f.data) then
          (Except.ok (s ++ ",_id"), params1, st)
        else
          match isSortableField oracle field index st with
          | (sortable, st1) =>
            if sortable then
              (Except.ok (s ++ ",_id"), params1, st1)
            else
              (Except.error ⟨ELASTICSEARCH_QUERY_ERROR,
                 "Sorting allowed by non-analyzed fields only: " ++ escapeHtml field⟩,
               params1, st1)

/-! ## Definitions: query builder -/

/-- The query clause of the output document: `ejs.MatchAllQuery()` or
`ejs.QueryStringQuery(...)`. -/
inductive QueryClause where
  | matchAll
  | queryString (q : String)
deriving DecidableEq, Repr

/-- `ejs.DateHistogramAggregation(name).field(f).interval(i)
.order(key, dir).format(fmt).minDocCount(m)`. -/
structure DateHistogramAgg where
  name : String
  field : String
  interval : String
  orderKey : String
  orderDir : String
  format : String
  minDocCount : Nat
deriving DecidableEq, Repr

/-- `ejs.TermsAggregation(name).field(f).size(s)`; `size = none` models the
`NaN` produced by `parseInt` on a missing or non-numeric limit. -/
structure TermsAgg where
  name : String
  field : String
  size : Option Int
deriving DecidableEq, Repr

/-- An aggregation clause added by `q.agg(...)`. -/
inductive AggClause where
  | dateHistogram (a : DateHistogramAgg)
  | terms (a : TermsAgg)
deriving DecidableEq, Repr

/-- The JSON document produced by `q.toJSON()` (plus the `search_after`
property written afterwards): an optional query clause (`q.query(...)` sets
it, overwriting), the list of aggregations (`q.agg(...)` appends), and the
optional pagination cursor. -/
structure QueryDocument where
  query : Option QueryClause := none
  aggs : List AggClause := []
  search_after : Option (List String) := none
deriving DecidableEq, Repr

/-- The numeric value of a run of decimal digits. -/
def digitsVal (ds : List Char) : Nat :=
  ds.foldl (fun a c => a * 10 + (c.toNat - 48)) 0

/-- JS `parseInt` with radix unspecified on a decimal string: skip leading
whitespace, optional sign, then the maximal run of decimal digits; `none`
models `NaN` (no digits).  The hexadecimal `0x` form accepted by `parseInt`
is not modelled; no input in this development uses it. -/
def jsParseInt (s : String) : Option Int :=
  let cs := s.data.dropWhile Char.isWhitespace
  match cs with
  | [] => none
  | c :: rest =>
    if c == '-' then
      let ds := rest.takeWhile Char.isDigit
      if ds.isEmpty then none else some (-(digitsVal ds : Int))
    else if c == '+' then
      let ds := rest.takeWhile Char.isDigit
      if ds.isEmpty then none else some (digitsVal ds)
    else
      let ds := cs.takeWhile Char.isDigit
      if ds.isEmpty then none else some (digitsVal ds)

/-- `parseInt(params.limit) + 1000` (`none` models `NaN`; `parseInt` of an
absent limit is `parseInt(undefined) = NaN`). -/
def limitPlus1000 (limit : Option String) : Option Int :=
  match limit with
  | none => none
  | some l => (jsParseInt l).map (fun v => v + 1000)

/-- JS `str.split(sep)` for a one-character separator: `""` splits to
`[""]`, and separators delimit (possibly empty) segments. -/
def splitListOn (sep : Char) : List Char → List (List Char)
  | [] => [[]]
  | c :: rest =>
    if c == sep then [] :: splitListOn sep rest
    else
      match splitListOn sep rest with
      | [] => [[c]]
      | h :: t => (c :: h) :: t

/-- The value part of one `key=value` segment: the characters after the
first `=`, or `""` when the segment has no `=` (qs assigns `''` then). -/
def segValue (p : List Char) : List Char :=
  match p.dropWhile (fun c => c != '=') with
  | [] => []
  | _ :: rest => rest

/-- Modelled from the spec: the cursor string is parsed by the external `qs`
library as a `;`-delimited `key=value` sequence
(`_.values(qs.parse(s, {delimiter: ';'}))`), injecting the ordered values.
The model splits on `;`, skips empty segments, and takes each segment's value
part in segment order; percent-decoding, bracket nesting and duplicate-key
merging of `qs` are not modelled (no claim depends on them). -/
def qsValues (s : String) : List String :=
  (((splitListOn ';' s.data).filter (fun p => !p.isEmpty)).map
    (fun p => (⟨segValue p⟩ : String)))

/-- `AddSearchAfter(ejsBody, params)`: when `params.search_after` is truthy,
write the parsed cursor values onto the document. -/
def AddSearchAfter (doc : QueryDocument) (params : QueryParams) : QueryDocument :=
  if truthy params.search_after then
    { doc with search_after := some (qsValues (params.search_after.getD "")) }
  else doc

/-- The body of `exports.BuildQuery` up to `q.toJSON()`: match-all when
neither `search` nor `count` is truthy; otherwise validate and rewrite
`search` into a query-string clause (throwing on unsupported characters), and
add the aggregation selected by `count` (date histogram for `DATE_FIELDS`
members, terms aggregation with size `parseInt(limit) + 1000` otherwise). -/
def buildQueryCore (params : QueryParams) : Except JsError QueryDocument :=
  if !truthy params.search && !truthy params.count then
    Except.ok { query := some QueryClause.matchAll }
  else
    let qcRes : Except JsError (Option QueryClause) :=
      if truthy params.search then
        let s := params.search.getD ""
        if !SupportedQueryString s then
          Except.error ⟨ELASTICSEARCH_QUERY_ERROR, "Search not supported: " ++ escapeHtml s⟩
        else
          Except.ok (some (QueryClause.queryString (HandleDeprecatedClauses s)))
      else Except.ok none
    match qcRes with
    | Except.error e => Except.error e
    | Except.ok qc =>
      let aggs : List AggClause :=
        if truthy params.count then
          let c := params.count.getD ""
          if DATE_FIELDS.contains c then
            [AggClause.dateHistogram ⟨"histogram", c, "day", "_key", "asc", "yyyyMMdd", 1⟩]
          else
            [AggClause.terms ⟨"count", c, limitPlus1000 params.limit⟩]
        else []
      Except.ok { query := qc, aggs := aggs }

/-- `exports.BuildQuery(params)`: build the document, then
`AddSearchAfter(qJson, params)`.  The second component is the parameter
object as the call leaves it; `BuildQuery` contains no assignment into
`params`, so it is returned unchanged. -/
def BuildQuery (params : QueryParams) : Except JsError QueryDocument × QueryParams :=
  (match buildQueryCore params with
   | Except.error e => Except.error e
   | Except.ok doc => Except.ok (AddSearchAfter doc params),
   params)

/-- The amended output invariant of `BuildQuery` (claim C6): the match-all
clause is present exactly when neither `search` nor `count` is truthy; a
text-query clause is present exactly when `search` is truthy (so for a
count-only request NO query clause is set); at most one aggregation clause is
set; the cursor field is present exactly when `search_after` is truthy, holds
the ordered scalar values parsed from the cursor string, and can be empty
only when the cursor string has no non-empty `;`-segment. -/
def QueryDocInvariant (params : QueryParams) (doc : QueryDocument) : Prop :=
  (doc.query = some QueryClause.matchAll
     ↔ (truthy params.search = false ∧ truthy params.count = false)) ∧
  ((∃ q, doc.query = some (QueryClause.queryString q)) ↔ truthy params.search = true) ∧
  doc.aggs.length ≤ 1 ∧
  (truthy params.search_after = true →
    doc.search_after = some (qsValues (params.search_after.getD ""))) ∧
  (truthy params.search_after = false → doc.search_after = none) ∧
  (∀ vs, doc.search_after = some vs → vs = [] →
    (splitListOn ';' (params.search_after.getD "").data).all
      (fun p => p.isEmpty) = true)

/-! ## Theorems -/

set_option maxRecDepth 4096 in
theorem amendedChar_eq_supportedChar (c : Char) : amendedChar c = supportedChar c := by
  have hiff : ∀ a b : Bool, (a = true ↔ b = true) → a = b := by decide
  apply hiff
  simp only [amendedChar, claimedChar, supportedChar, Bool.or_eq_true, decide_eq_true_eq]
  omega

/-- C1, counterexample.  The claim is false in both directions at concrete
inputs: the string `"@"` contains a character outside the claim's enumerated
set yet `SupportedQueryString` returns `true` (the regex class also contains
`@`); and the empty string consists only of characters of the set (vacuously)
yet `SupportedQueryString` returns `false` (the regex requires at least one
character). -/
theorem supportedQueryString_claim_cex :
    ("@".data.all claimedChar = false ∧ SupportedQueryString "@" = true) ∧
    ("".data.all claimedChar = true ∧ SupportedQueryString "" = false) := by
  decide

/-- C1, amended: for every non-empty string consisting only of ASCII letters,
digits, the punctuation characters `. _ : ( ) " [ ] { } - + > < = , % & / '`,
the space character and `@`, `SupportedQueryString` returns `true`; and for
every string containing at least one character outside that set it returns
`false`. -/
theorem supportedQueryString_characterization (s : String) :
    (s.data ≠ [] → s.data.all amendedChar = true → SupportedQueryString s = true) ∧
    (s.data.all amendedChar = false → SupportedQueryString s = false) := by
  have hall : s.data.all amendedChar = s.data.all supportedChar := by
    induction s.data with
    | nil => rfl
    | cons c cs ih => simp [List.all_cons, amendedChar_eq_supportedChar, ih]
  constructor
  · intro hne hamended
    simp only [SupportedQueryString, Bool.and_eq_true, Bool.not_eq_true']
    exact ⟨by simpa [List.isEmpty_iff] using hne, hall ▸ hamended⟩
  · intro hamended
    simp only [SupportedQueryString, Bool.and_eq_false_iff]
    right
    exact hall ▸ hamended

/-- C1, witness for the amended theorem, with the hypotheses discharged at the
concrete inputs `"a(@"` (all characters in the amended set) and `"a^"`
(`^` is outside the set). -/
theorem supportedQueryString_characterization_witness :
    SupportedQueryString "a(@" = true ∧ SupportedQueryString "a^" = false :=
  ⟨(supportedQueryString_characterization "a(@").1 (by decide) (by decide),
   (supportedQueryString_characterization "a^").2 (by decide)⟩

theorem replaceMissingAux_nil : replaceMissingAux [] = [] := by
  rw [replaceMissingAux]

theorem replaceMissingAux_step_match (cs cap : List Char) (n : Nat)
    (hne : cs ≠ [])
    (htok : cs.take 10 = MISSING_TOKEN)
    (hm : matchFieldPath (cs.drop 10) = some (cap, n)) :
    replaceMissingAux cs
      = REPL_OPEN ++ cap ++ REPL_CLOSE ++ replaceMissingAux (cs.drop (10 + n)) := by
  match cs, hne with
  | c :: rest, _ =>
    rw [replaceMissingAux, if_pos (by rw [htok]; exact beq_self_eq_true _), hm]

theorem replaceMissingAux_step_no_match (c : Char) (rest : List Char)
    (h : matchesAt (c :: rest) = false) :
    replaceMissingAux (c :: rest) = c :: replaceMissingAux rest := by
  rw [replaceMissingAux]
  simp only [matchesAt, Bool.and_eq_false_iff] at h
  rcases h with h | h
  · rw [if_neg (by simp only [h]; exact Bool.false_ne_true)]
  · by_cases htok : (List.take 10 (c :: rest) == MISSING_TOKEN) = true
    · have hnone : matchFieldPath (List.drop 10 (c :: rest)) = none :=
        Option.not_isSome_iff_eq_none.mp (by simp only [h]; exact Bool.false_ne_true)
      rw [if_pos htok, hnone]
    · rw [if_neg htok]

theorem takeWhile_append_of_all (p : Char → Bool) (l₁ l₂ : List Char)
    (h : l₁.all p = true) :
    (l₁ ++ l₂).takeWhile p = l₁ ++ l₂.takeWhile p := by
  induction l₁ with
  | nil => simp
  | cons c cs ih =>
    simp only [List.all_cons, Bool.and_eq_true] at h
    simp [List.takeWhile_cons, h.1, ih h.2]

theorem matchFieldPath_at_field (fld suf : List Char)
    (hne : fld ≠ []) (hw : fld.all isWordDot = true) (hs : noExtend suf) :
    matchFieldPath (fld ++ suf) = some (fld, fld.length) := by
  match fld, hne with
  | f :: fld', _ =>
    have hf : isWordDot f = true := by
      simp only [List.all_cons, Bool.and_eq_true] at hw
      exact hw.1
    have hfq : ¬((f == quoteC) = true) := by
      intro hq
      have : f = quoteC := by simpa using hq
      rw [this] at hf
      exact absurd hf (by decide)
    have hrun : (f :: (fld' ++ suf)).takeWhile isWordDot = f :: fld' := by
      have := takeWhile_append_of_all isWordDot (f :: fld') suf hw
      rw [List.cons_append] at this
      rw [this]
      cases suf with
      | nil => simp
      | cons d suf' =>
        rcases hs with ⟨hd, _⟩
        simp [List.takeWhile_cons, hd]
    have hdrop : List.drop (f :: fld').length (f :: (fld' ++ suf)) = suf := by
      rw [← List.cons_append]
      exact List.drop_left _ _
    rw [List.cons_append, matchFieldPath, if_neg hfq]
    simp only [hrun, hdrop, List.isEmpty_cons, Bool.false_eq_true, if_false]
    cases suf with
    | nil => rfl
    | cons d suf' =>
      rcases hs with ⟨_, hdq⟩
      simp [beq_eq_false_iff_ne.mpr hdq]

theorem replaceMissingAux_id (cs : List Char)
    (h : ∀ n, matchesAt (cs.drop n) = false) : replaceMissingAux cs = cs := by
  induction cs with
  | nil => exact replaceMissingAux_nil
  | cons c rest ih =>
    rw [replaceMissingAux_step_no_match c rest (by simpa using h 0)]
    rw [ih (fun n => by simpa [List.drop_succ_cons] using h (n + 1))]

theorem replaceMissingAux_rewrites (fld suf : List Char) (hne : fld ≠ [])
    (hw : fld.all isWordDot = true) (hs : noExtend suf) :
    replaceMissingAux (MISSING_TOKEN ++ fld ++ suf)
      = REPL_OPEN ++ fld ++ REPL_CLOSE ++ replaceMissingAux suf := by
  have htok : (MISSING_TOKEN ++ fld ++ suf).take 10 = MISSING_TOKEN := by
    rw [List.append_assoc]
    exact List.take_left' (by decide)
  have hmatch : matchFieldPath ((MISSING_TOKEN ++ fld ++ suf).drop 10)
      = some (fld, fld.length) := by
    rw [List.append_assoc, List.drop_left' (by decide)]
    exact matchFieldPath_at_field fld suf hne hw hs
  have hdrop : (MISSING_TOKEN ++ fld ++ suf).drop (10 + fld.length) = suf := by
    refine List.drop_left' ?_
    rw [List.length_append]
    have : MISSING_TOKEN.length = 10 := by decide
    omega
  have hwhole : MISSING_TOKEN ++ fld ++ suf ≠ [] := by
    intro hc
    have h' := htok
    rw [hc, List.take_nil] at h'
    exact absurd h' (by decide)
  rw [replaceMissingAux_step_match _ fld fld.length hwhole htok hmatch, hdrop]

theorem matchesAt_of_short (cs : List Char) (h : cs.length < 10) :
    matchesAt cs = false := by
  simp only [matchesAt, Bool.and_eq_false_iff]
  left
  rcases Bool.eq_false_or_eq_true (cs.take 10 == MISSING_TOKEN) with ht | hf
  · exfalso
    have heq : cs.take 10 = MISSING_TOKEN := by simpa using ht
    have hlen : (cs.take 10).length = 10 := by rw [heq]; decide
    rw [List.length_take] at hlen
    omega
  · exact hf

/-- C10: `HandleDeprecatedClauses` rewrites every occurrence of the legacy
`_missing_:` operator followed by a field path into a negated-existence
expression.  Conjuncts: (1) `"_missing_:foo"` becomes `"(NOT (_exists_:foo))"`;
(2) quoted field paths are preserved; (3) a string in which the token never
occurs followed by a field path of the expected shape is left entirely
unchanged; (4) in general, an occurrence of the token followed by an unquoted
field path (a non-empty `[\w.]` run, delimited on the right) is rewritten in
place and scanning continues on the remaining suffix. -/
theorem handleDeprecatedClauses_correct :
    HandleDeprecatedClauses "_missing_:foo" = "(NOT (_exists_:foo))" ∧
    HandleDeprecatedClauses "_missing_:\"a.b\"" = "(NOT (_exists_:\"a.b\"))" ∧
    (∀ s : String, (∀ n, matchesAt (s.data.drop n) = false) →
      HandleDeprecatedClauses s = s) ∧
    (∀ fld suf : List Char, fld ≠ [] → fld.all isWordDot = true → noExtend suf →
      replaceMissingAux (MISSING_TOKEN ++ fld ++ suf)
        = REPL_OPEN ++ fld ++ REPL_CLOSE ++ replaceMissingAux suf) := by
  refine ⟨?_, ?_, ?_, replaceMissingAux_rewrites⟩
  · have h1 := replaceMissingAux_step_match "_missing_:foo".data "foo".data 3
      (by decide) (by decide) (by decide)
    have h2 : List.drop (10 + 3) "_missing_:foo".data = [] := by decide
    simp only [HandleDeprecatedClauses]
    rw [h1, h2, replaceMissingAux_nil]
    decide
  · have h1 := replaceMissingAux_step_match "_missing_:\"a.b\"".data "\"a.b\"".data 5
      (by decide) (by decide) (by decide)
    have h2 : List.drop (10 + 5) "_missing_:\"a.b\"".data = [] := by decide
    simp only [HandleDeprecatedClauses]
    rw [h1, h2, replaceMissingAux_nil]
    decide
  · intro s h
    simp only [HandleDeprecatedClauses]
    rw [replaceMissingAux_id s.data h]

/-- C10, witness: the no-occurrence conjunct applied at `"abc"` and the
general-rewrite conjunct applied at field `f` with suffix `" "`. -/
theorem handleDeprecatedClauses_correct_witness :
    HandleDeprecatedClauses "abc" = "abc" ∧
    replaceMissingAux (MISSING_TOKEN ++ ['f'] ++ [' '])
      = REPL_OPEN ++ ['f'] ++ REPL_CLOSE ++ replaceMissingAux [' '] := by
  constructor
  · refine handleDeprecatedClauses_correct.2.2.1 "abc" (fun n => ?_)
    refine matchesAt_of_short _ ?_
    rw [List.length_drop]
    have : ("abc".data).length = 3 := by decide
    omega
  · exact handleDeprecatedClauses_correct.2.2.2 ['f'] [' ']
      (by decide) (by decide) (by exact ⟨by decide, by decide⟩)

/-- C2, counterexample: after a failed metadata lookup for the uncached pair
`("idx", "f")`, a cache entry for that pair DOES exist and holds `false`, a
boolean not derived from any successfully retrieved mapping type (the source
flushes the cache inside the `catch`, but `isSortableField` then stores the
returned `false` under the pair's key). -/
theorem sortabilityCache_poisoning_cex :
    (isSortableField (fun _ _ => LookupResult.err) "f" "idx" ⟨[], 0⟩).1 = false ∧
    cacheGet ((isSortableField (fun _ _ => LookupResult.err) "f" "idx" ⟨[], 0⟩).2).cache
        "idx.f" = some false := by
  decide

/-- C2, amended: when the metadata lookup for an uncached `(index, field)`
pair fails, the cache is flushed and then the failure-derived `false` is
stored for that pair, so after the call the cache consists of exactly the
entry `(index + "." + field, false)` and `false` is returned; a
failure-derived boolean (always `false`) is therefore stored in the cache,
limited to the failed pair's key. -/
theorem sortabilityCache_failure_entry (oracle : MappingOracle) (field index : String)
    (st : CacheState)
    (hf : field.data ≠ []) (hi : index.data ≠ [])
    (hmiss : cacheGet st.cache (index ++ "." ++ field) = none)
    (herr : oracle index field = LookupResult.err) :
    isSortableField oracle field index st
      = (false, ⟨[(index ++ "." ++ field, false)], st.lookups + 1⟩) := by
  have hidx : index.data.isEmpty = false := by
    simpa [List.isEmpty_iff] using hi
  have hfld : field.data.isEmpty = false := by
    simpa [List.isEmpty_iff] using hf
  simp [isSortableField, hidx, hfld, hmiss, isFieldTypeAcceptableForSorting, herr, cacheSet]

/-- C2, witness for the amended theorem at a concrete failing oracle, with a
previously cached unrelated entry. -/
theorem sortabilityCache_failure_entry_witness :
    isSortableField (fun _ _ => LookupResult.err) "f" "idx" ⟨[("idx.g", true)], 5⟩
      = (false, ⟨[("idx.f", false)], 6⟩) :=
  sortabilityCache_failure_entry (fun _ _ => LookupResult.err) "f" "idx"
    ⟨[("idx.g", true)], 5⟩ (by decide) (by decide) (by decide) rfl

/-- C3, counterexample: a metadata lookup that succeeds but reports no
mapping (the claim's "missing mapping" failure mode) does NOT clear the
cache: after `isSortableField` for the uncached pair `("idx", "f")` returns
`false`, the previously cached unrelated entry `"idx.other"` is still
present. -/
theorem sortabilityCache_clear_cex :
    (isSortableField (fun _ _ => LookupResult.ok []) "f" "idx"
        ⟨[("idx.other", true)], 0⟩).1 = false ∧
    cacheGet ((isSortableField (fun _ _ => LookupResult.ok []) "f" "idx"
        ⟨[("idx.other", true)], 0⟩).2).cache "idx.other" = some true := by
  decide

/-- C3, amended: only a lookup that throws clears the cache.  When the
metadata lookup for an uncached `(index, field)` pair throws, `false` is
returned and every cache entry other than the pair's own key (in particular
every previously cached entry, the pair itself being uncached) is removed;
when the lookup succeeds but reports no mapping, `false` is returned and
cached without clearing the other entries. -/
theorem sortabilityCache_failure_clears (oracle : MappingOracle) (field index : String)
    (st : CacheState)
    (hf : field.data ≠ []) (hi : index.data ≠ [])
    (hmiss : cacheGet st.cache (index ++ "." ++ field) = none) :
    (oracle index field = LookupResult.err →
      (isSortableField oracle field index st).1 = false ∧
      ∀ k, k ≠ index ++ "." ++ field →
        cacheGet ((isSortableField oracle field index st).2).cache k = none) ∧
    (oracle index field = LookupResult.ok [] →
      isSortableField oracle field index st
        = (false, ⟨cacheSet st.cache (index ++ "." ++ field) false, st.lookups + 1⟩)) := by
  have hidx : index.data.isEmpty = false := by
    simpa [List.isEmpty_iff] using hi
  have hfld : field.data.isEmpty = false := by
    simpa [List.isEmpty_iff] using hf
  constructor
  · intro herr
    have hres : isSortableField oracle field index st
        = (false, ⟨[(index ++ "." ++ field, false)], st.lookups + 1⟩) := by
      simp [isSortableField, hidx, hfld, hmiss, isFieldTypeAcceptableForSorting, herr, cacheSet]
    rw [hres]
    refine ⟨rfl, fun k hk => ?_⟩
    simp only [cacheGet, List.find?]
    rw [show ((index ++ "." ++ field, false).1 == k) = false from
      beq_eq_false_iff_ne.mpr (fun hc => hk hc.symm)]
  · intro hok
    simp [isSortableField, hidx, hfld, hmiss, isFieldTypeAcceptableForSorting, hok]

/-- C3, witness for the amended theorem: a thrown lookup removes the
previously cached unrelated entry, while an empty-mapping lookup keeps it. -/
theorem sortabilityCache_failure_clears_witness :
    ((isSortableField (fun _ _ => LookupResult.err) "f" "idx"
        ⟨[("idx.other", true)], 0⟩).1 = false ∧
      cacheGet ((isSortableField (fun _ _ => LookupResult.err) "f" "idx"
        ⟨[("idx.other", true)], 0⟩).2).cache "idx.other" = none) ∧
    isSortableField (fun _ _ => LookupResult.ok []) "f" "idx" ⟨[("idx.other", true)], 0⟩
      = (false, ⟨cacheSet [("idx.other", true)] "idx.f" false, 1⟩) := by
  constructor
  · have h := (sortabilityCache_failure_clears (fun _ _ => LookupResult.err) "f" "idx"
      ⟨[("idx.other", true)], 0⟩ (by decide) (by decide) (by decide)).1 rfl
    exact ⟨h.1, h.2 "idx.other" (by decide)⟩
  · exact (sortabilityCache_failure_clears (fun _ _ => LookupResult.ok []) "f" "idx"
      ⟨[("idx.other", true)], 0⟩ (by decide) (by decide) (by decide)).2 rfl

theorem hasSub_nil_pat (l : List Char) : hasSub l [] = true := by
  cases l with
  | nil => rfl
  | cons c rest => simp [hasSub, subAt]

theorem hasSub_drop (l : List Char) (k : Nat) : hasSub l (l.drop k) = true := by
  induction l generalizing k with
  | nil => simp [List.drop_nil, hasSub, subAt]
  | cons c rest ih =>
    cases k with
    | zero => simp [hasSub, subAt, List.take_length]
    | succ k' =>
      simp only [List.drop_succ_cons, hasSub]
      rw [ih k']
      simp

theorem endsWithL_hasSub (l pat : List Char) (h : endsWithL l pat = true) :
    hasSub l pat = true := by
  have hp : l.drop (l.length - pat.length) = pat := by simpa [endsWithL] using h
  rw [← hp]
  exact hasSub_drop l _

theorem hasSub_append (l₁ l₂ pat : List Char) (h : hasSub l₁ pat = true) :
    hasSub (l₁ ++ l₂) pat = true := by
  induction l₁ with
  | nil =>
    have hpat : pat = [] := by
      have h' : ([] : List Char) = pat := by simpa [hasSub, subAt] using h
      exact h'.symm
    rw [hpat]
    simpa using hasSub_nil_pat l₂
  | cons c l₁' ih =>
    rw [List.cons_append]
    simp only [hasSub, Bool.or_eq_true] at h ⊢
    rcases h with h | h
    · left
      simp only [subAt, beq_iff_eq] at h ⊢
      have hlen : pat.length ≤ (c :: l₁').length := by
        have := congrArg List.length h
        rw [List.length_take] at this
        omega
      rw [← List.cons_append, List.take_append_of_le_length hlen]
      exact h
    · right
      exact ih h

set_option maxRecDepth 16384 in
theorem buildSort_accepts (oracle : MappingOracle) (params : QueryParams)
    (index : String) (st : CacheState) (s : String)
    (hsort : params.sort = some s) (hne : s.data ≠ [])
    (hsup : SupportedQueryString (jsTrim s) = true)
    (hhas : (hasSub (jsTrim s).data EXACT_TOKEN
        || DATE_FIELDS.any (fun f => endsWithL (sortField (jsTrim s)).data f.data)) = true) :
    BuildSort oracle params index st
      = (Except.ok (jsTrim s ++ ",_id"), { params with sort := some (jsTrim s) }, st) := by
  have he : s.data.isEmpty = false := by simpa [List.isEmpty_iff] using hne
  simp only [BuildSort, hsort, he, Bool.false_eq_true, if_false, hsup, Bool.not_true,
    hhas, if_true]

set_option maxRecDepth 16384 in
theorem buildSort_rejects (oracle : MappingOracle) (params : QueryParams)
    (index : String) (st : CacheState) (s : String)
    (hsort : params.sort = some s) (hne : s.data ≠ [])
    (hsup : SupportedQueryString (jsTrim s) = true)
    (hhas : hasSub (jsTrim s).data EXACT_TOKEN = false)
    (hdate : DATE_FIELDS.any (fun f => endsWithL (sortField (jsTrim s)).data f.data) = false)
    (hsortable : (isSortableField oracle (sortField (jsTrim s)) index st).1 = false) :
    BuildSort oracle params index st
      = (Except.error ⟨ELASTICSEARCH_QUERY_ERROR,
           "Sorting allowed by non-analyzed fields only: " ++ escapeHtml (sortField (jsTrim s))⟩,
         { params with sort := some (jsTrim s) },
         (isSortableField oracle (sortField (jsTrim s)) index st).2) := by
  have he : s.data.isEmpty = false := by simpa [List.isEmpty_iff] using hne
  rcases hps : isSortableField oracle (sortField (jsTrim s)) index st with ⟨v, st2⟩
  have hv : v = false := by rw [hps] at hsortable; exact hsortable
  subst hv
  simp only [BuildSort, hsort, he, Bool.false_eq_true, if_false, hsup, Bool.not_true,
    hhas, hdate, Bool.or_self, hps]

/-- C4, counterexample: the sort expression `"exacta"` does not end in
`exact` (its field name is `exacta`), is not a date field by suffix, and the
metadata check reports the non-sortable type `text` — the claim demands a
query-validation error — yet `BuildSort` accepts it, because the source tests
`params.sort.indexOf('exact') == -1` (containment anywhere in the whole
expression), not an `exact` suffix of the field name. -/
theorem buildSort_exact_claim_cex :
    (BuildSort (fun _ _ => LookupResult.ok [⟨some "text"⟩])
        { sort := some "exacta" } "idx" ⟨[], 0⟩).1 = Except.ok "exacta,_id" ∧
    endsWithL (sortField "exacta").data EXACT_TOKEN = false ∧
    DATE_FIELDS.any (fun f => endsWithL (sortField "exacta").data f.data) = false ∧
    (isSortableField (fun _ _ => LookupResult.ok [⟨some "text"⟩])
        (sortField "exacta") "idx" ⟨[], 0⟩).1 = false := by
  decide

/-- C4, amended: (1) a sort expression containing `exact` anywhere — in
particular (2) one whose field name ends in `exact` — is treated as sortable
with no date-set or metadata check (the state is returned untouched); (3)
every sort expression that does not contain `exact`, whose field does not
match the static date-field set by suffix, and is not confirmed sortable by
the metadata-backed check (e.g. when the mapping lookup reports type
`"text"`) is rejected with a query-validation error identifying the
offending field. -/
theorem buildSort_exact_and_reject :
    (∀ (oracle : MappingOracle) (params : QueryParams) (index : String)
        (st : CacheState) (s : String), params.sort = some s → s.data ≠ [] →
      SupportedQueryString (jsTrim s) = true →
      hasSub (jsTrim s).data EXACT_TOKEN = true →
      BuildSort oracle params index st
        = (Except.ok (jsTrim s ++ ",_id"), { params with sort := some (jsTrim s) }, st)) ∧
    (∀ (oracle : MappingOracle) (params : QueryParams) (index : String)
        (st : CacheState) (s : String), params.sort = some s → s.data ≠ [] →
      SupportedQueryString (jsTrim s) = true →
      endsWithL (sortField (jsTrim s)).data EXACT_TOKEN = true →
      BuildSort oracle params index st
        = (Except.ok (jsTrim s ++ ",_id"), { params with sort := some (jsTrim s) }, st)) ∧
    (∀ (oracle : MappingOracle) (params : QueryParams) (index : String)
        (st : CacheState) (s : String), params.sort = some s → s.data ≠ [] →
      SupportedQueryString (jsTrim s) = true →
      hasSub (jsTrim s).data EXACT_TOKEN = false →
      (∀ f ∈ DATE_FIELDS, endsWithL (sortField (jsTrim s)).data f.data = false) →
      (isSortableField oracle (sortField (jsTrim s)) index st).1 = false →
      BuildSort oracle params index st
        = (Except.error ⟨ELASTICSEARCH_QUERY_ERROR,
             "Sorting allowed by non-analyzed fields only: " ++ escapeHtml (sortField (jsTrim s))⟩,
           { params with sort := some (jsTrim s) },
           (isSortableField oracle (sortField (jsTrim s)) index st).2)) := by
  refine ⟨?_, ?_, ?_⟩
  · intro oracle params index st s hsort hne hsup hhas
    exact buildSort_accepts oracle params index st s hsort hne hsup (by rw [hhas]; rfl)
  · intro oracle params index st s hsort hne hsup hends
    have h1 : hasSub (sortField (jsTrim s)).data EXACT_TOKEN = true :=
      endsWithL_hasSub _ _ hends
    have h2 : hasSub (jsTrim s).data EXACT_TOKEN = true := by
      have hsplit := List.takeWhile_append_dropWhile
        (p := fun c => c != ':') (l := (jsTrim s).data)
      rw [← hsplit]
      exact hasSub_append _ _ _ h1
    exact buildSort_accepts oracle params index st s hsort hne hsup (by rw [h2]; rfl)
  · intro oracle params index st s hsort hne hsup hhas hdates hsortable
    have hdate : DATE_FIELDS.any
        (fun f => endsWithL (sortField (jsTrim s)).data f.data) = false := by
      rw [List.any_eq_false]
      intro f hf
      simp [hdates f hf]
    exact buildSort_rejects oracle params index st s hsort hne hsup hhas hdate hsortable

/-- C4, witness for the amended theorem: the field `a.exact` (ending in
`exact`) is accepted without touching the state even though the oracle would
fail, and the field `foo` with a `text` mapping is rejected with the
validation error naming `foo`. -/
theorem buildSort_exact_and_reject_witness :
    BuildSort (fun _ _ => LookupResult.err) { sort := some "a.exact:desc" } "idx" ⟨[], 0⟩
      = (Except.ok "a.exact:desc,_id", { sort := some "a.exact:desc" }, ⟨[], 0⟩) ∧
    BuildSort (fun _ _ => LookupResult.ok [⟨some "text"⟩])
        { sort := some "foo:desc" } "idx" ⟨[], 0⟩
      = (Except.error ⟨ELASTICSEARCH_QUERY_ERROR,
           "Sorting allowed by non-analyzed fields only: foo"⟩,
         { sort := some "foo:desc" }, ⟨[("idx.foo", false)], 1⟩) := by
  constructor
  · exact buildSort_exact_and_reject.2.1 (fun _ _ => LookupResult.err)
      { sort := some "a.exact:desc" } "idx" ⟨[], 0⟩ "a.exact:desc"
      rfl (by decide) (by decide) (by decide)
  · exact buildSort_exact_and_reject.2.2 (fun _ _ => LookupResult.ok [⟨some "text"⟩])
      { sort := some "foo:desc" } "idx" ⟨[], 0⟩ "foo:desc"
      rfl (by decide) (by decide) (by decide) (by decide) (by decide)

/-- C5, counterexample: `BuildSort` mutates the caller-supplied params — the
source assigns `params.sort = params.sort.trim()` — so with `sort = " a "`
the `sort` field holds a different value after the call. -/
theorem buildSort_mutation_cex :
    ((BuildSort (fun _ _ => LookupResult.err) { sort := some " a " } "idx"
        ⟨[], 0⟩).2.1).sort = some "a" ∧
    some "a" ≠ ({ sort := some " a " } : QueryParams).sort := by
  decide

theorem buildSort_params_out (oracle : MappingOracle) (params : QueryParams)
    (index : String) (st : CacheState) :
    (BuildSort oracle params index st).2.1
      = match params.sort with
        | none => params
        | some s => if s.data.isEmpty then params
                    else { params with sort := some (jsTrim s) } := by
  cases hs : params.sort with
  | none => simp [BuildSort, hs]
  | some s =>
    by_cases he : s.data.isEmpty = true
    · simp [BuildSort, hs, he]
    · simp only [BuildSort, hs]
      rw [if_neg he, if_neg he]
      split
      · rfl
      · split
        · rfl
        · split
          · rfl
          · rfl

/-- C5, amended: `BuildQuery` never mutates the caller-supplied params; after
a `BuildSort` call (returning or throwing), the params object differs from
the input only in `sort`, which — when it was a non-empty string — now holds
its trimmed value; `search`, `count`, `limit` and `search_after` are
unchanged. -/
theorem builders_params_mutation (oracle : MappingOracle) (params : QueryParams)
    (index : String) (st : CacheState) :
    (BuildQuery params).2 = params ∧
    (BuildSort oracle params index st).2.1
      = { params with sort := match params.sort with
                              | none => none
                              | some s => if s.data.isEmpty then some s
                                          else some (jsTrim s) } := by
  rcases params with ⟨se, co, so, li, sa⟩
  refine ⟨rfl, ?_⟩
  rw [buildSort_params_out]
  cases so with
  | none => rfl
  | some s =>
    by_cases he : s.data.isEmpty = true
    · simp [he]
    · simp [he]

/-- C8: `BuildSort` with no `sort` param returns the identifier-only default
order `"_id"`; with `sort = "patientdeathdate:desc"` it returns
`"patientdeathdate:desc,_id"` with the cache state untouched (the date-field
short-circuit issues no metadata lookup); and every successful result for a
sort expression is that (trimmed, per step 2 of the algorithm) expression
with the fixed tiebreaker `",_id"` appended. -/
theorem buildSort_default_and_tiebreaker (oracle : MappingOracle)
    (params : QueryParams) (index : String) (st : CacheState) :
    (params.sort = none → BuildSort oracle params index st = (Except.ok "_id", params, st)) ∧
    (params.sort = some "patientdeathdate:desc" →
      BuildSort oracle params index st
        = (Except.ok "patientdeathdate:desc,_id",
           { params with sort := some "patientdeathdate:desc" }, st)) ∧
    (∀ s r p' st', params.sort = some s → s.data ≠ [] →
      BuildSort oracle params index st = (Except.ok r, p', st') →
      r = jsTrim s ++ ",_id") := by
  refine ⟨?_, ?_, ?_⟩
  · intro hs
    simp [BuildSort, hs]
  · intro hs
    have h := buildSort_accepts oracle params index st "patientdeathdate:desc"
      hs (by decide) (by decide) (by decide)
    rw [h]
    rfl
  · intro s r p' st' hs hne hres
    have he : s.data.isEmpty = false := by simpa [List.isEmpty_iff] using hne
    simp only [BuildSort, hs, he, Bool.false_eq_true, if_false] at hres
    split at hres
    · exact absurd (congrArg Prod.fst hres) (by simp)
    · split at hres
      · have := congrArg Prod.fst hres
        simpa [eq_comm] using this
      · split at hres
        · have := congrArg Prod.fst hres
          simpa [eq_comm] using this
        · exact absurd (congrArg Prod.fst hres) (by simp)

/-- C8, witness: the no-sort default at a concrete call, and the general
tiebreaker conjunct discharged at the concrete sort `" x "` (whose trimmed
form is `"x"`) with an oracle reporting type `keyword`. -/
theorem buildSort_default_and_tiebreaker_witness :
    BuildSort (fun _ _ => LookupResult.err) {} "idx" ⟨[], 0⟩
      = (Except.ok "_id", {}, ⟨[], 0⟩) ∧
    "x,_id" = jsTrim " x " ++ ",_id" := by
  constructor
  · exact (buildSort_default_and_tiebreaker (fun _ _ => LookupResult.err)
      {} "idx" ⟨[], 0⟩).1 rfl
  · exact (buildSort_default_and_tiebreaker
      (fun _ _ => LookupResult.ok [⟨some "keyword"⟩])
      { sort := some " x " } "idx" ⟨[], 0⟩).2.2 " x " "x,_id"
      { sort := some "x" } ⟨[("idx.x", true)], 1⟩ rfl (by decide) (by decide)

theorem addSearchAfter_query (doc : QueryDocument) (params : QueryParams) :
    (AddSearchAfter doc params).query = doc.query := by
  simp only [AddSearchAfter]
  split <;> rfl

theorem addSearchAfter_aggs (doc : QueryDocument) (params : QueryParams) :
    (AddSearchAfter doc params).aggs = doc.aggs := by
  simp only [AddSearchAfter]
  split <;> rfl

theorem buildQuery_ok_parts (params : QueryParams) (d : QueryDocument)
    (h : (BuildQuery params).1 = Except.ok d) :
    ∃ d0, buildQueryCore params = Except.ok d0 ∧ d = AddSearchAfter d0 params := by
  simp only [BuildQuery] at h
  cases hc : buildQueryCore params with
  | error e =>
    rw [hc] at h
    exact absurd h (by simp)
  | ok d0 =>
    rw [hc] at h
    simp only [Except.ok.injEq] at h
    exact ⟨d0, rfl, h.symm⟩

set_option maxRecDepth 16384 in
theorem buildQueryCore_ok (params : QueryParams) (d : QueryDocument)
    (h : buildQueryCore params = Except.ok d) :
    (d.query = some QueryClause.matchAll
       ↔ (truthy params.search = false ∧ truthy params.count = false)) ∧
    ((∃ q, d.query = some (QueryClause.queryString q)) ↔ truthy params.search = true) ∧
    d.aggs.length ≤ 1 ∧
    d.search_after = none := by
  simp only [buildQueryCore] at h
  split at h
  · next h1 =>
    simp only [Bool.and_eq_true, Bool.not_eq_true'] at h1
    simp only [Except.ok.injEq] at h
    subst h
    refine ⟨by simp [h1.1, h1.2], ⟨?_, ?_⟩, by simp, rfl⟩
    · rintro ⟨q, hq⟩
      exact absurd hq (by simp)
    · intro hq
      rw [h1.1] at hq
      exact absurd hq (by simp)
  · next h1 =>
    have h1' : truthy params.search = true ∨ truthy params.count = true := by
      rcases Bool.eq_false_or_eq_true (truthy params.search) with hs | hs
      · exact Or.inl hs
      · right
        rcases Bool.eq_false_or_eq_true (truthy params.count) with hc | hc
        · exact hc
        · exact absurd (by simp [hs, hc]) h1
    split at h
    · next e heq =>
      exact absurd h (by simp)
    · next qc heq =>
      simp only [Except.ok.injEq] at h
      subst h
      have haggs : (if truthy params.count = true then
          if DATE_FIELDS.contains (params.count.getD "") = true then
            [AggClause.dateHistogram
              ⟨"histogram", params.count.getD "", "day", "_key", "asc", "yyyyMMdd", 1⟩]
          else
            [AggClause.terms ⟨"count", params.count.getD "", limitPlus1000 params.limit⟩]
        else ([] : List AggClause)).length ≤ 1 := by
        split
        · split <;> simp
        · simp
      split at heq
      · next hs =>
        split at heq
        · next hsup =>
          exact absurd heq (by simp)
        · next hsup =>
          simp only [Except.ok.injEq] at heq
          subst heq
          refine ⟨⟨?_, ?_⟩, ⟨?_, ?_⟩, haggs, rfl⟩
          · intro hq
            exact absurd hq (by simp)
          · rintro ⟨hsf, _⟩
            rw [hs] at hsf
            exact absurd hsf (by simp)
          · intro _
            exact hs
          · intro _
            exact ⟨_, rfl⟩
      · next hs =>
        have hs' : truthy params.search = false := by
          rcases Bool.eq_false_or_eq_true (truthy params.search) with h' | h'
          · exact absurd h' hs
          · exact h'
        have hc : truthy params.count = true := by
          rcases h1' with h' | h'
          · exact absurd h' hs
          · exact h'
        simp only [Except.ok.injEq] at heq
        subst heq
        refine ⟨⟨?_, ?_⟩, ⟨?_, ?_⟩, haggs, rfl⟩
        · intro hq
          exact absurd hq (by simp)
        · rintro ⟨_, hcf⟩
          rw [hc] at hcf
          exact absurd hcf (by simp)
        · rintro ⟨q, hq⟩
          exact absurd hq (by simp)
        · intro hq
          rw [hs'] at hq
          exact absurd hq (by simp)

/-- C6, counterexample: (1) for a count-only request the document has NO
query clause at all — neither match-all nor text-query — falsifying "exactly
one of a match-all clause or a text-query clause is set"; (2) for the cursor
string `";"` the output `search_after` is present but EMPTY, falsifying "a
non-empty ordered sequence". -/
theorem queryDocument_invariant_cex :
    (BuildQuery { count := some "brand_name", limit := some "10" }).1
      = Except.ok ⟨none,
          [AggClause.terms { name := "count", field := "brand_name", size := some 1010 }],
          none⟩ ∧
    (BuildQuery { search_after := some ";" }).1
      = Except.ok ⟨some QueryClause.matchAll, [], some []⟩ := by
  constructor
  · decide
  · decide

/-- C6, amended: every document returned by `BuildQuery` satisfies the
invariant `QueryDocInvariant`: the match-all clause is set exactly when
neither `search` nor `count` is given, a text-query clause exactly when
`search` is given (so a count-only document has no query clause); at most one
aggregation clause is set; and the `search_after` field is present exactly
when the cursor param is given, holding the ordered scalar values derived
from the cursor string (empty only when the cursor has no non-empty
segment). -/
theorem buildQuery_document_invariant (params : QueryParams) (doc : QueryDocument)
    (h : (BuildQuery params).1 = Except.ok doc) : QueryDocInvariant params doc := by
  obtain ⟨d0, hcore, hdoc⟩ := buildQuery_ok_parts params doc h
  obtain ⟨hiff1, hiff2, hlen, hsan⟩ := buildQueryCore_ok params d0 hcore
  subst hdoc
  refine ⟨?_, ?_, ?_, ?_, ?_, ?_⟩
  · rw [addSearchAfter_query]
    exact hiff1
  · simpa only [addSearchAfter_query] using hiff2
  · rw [addSearchAfter_aggs]
    exact hlen
  · intro ht
    simp [AddSearchAfter, ht]
  · intro hf
    simp [AddSearchAfter, hf, hsan]
  · intro vs hvs hnil
    subst hnil
    by_cases ht : truthy params.search_after = true
    · have hvs' : qsValues (params.search_after.getD "") = [] := by
        simp only [AddSearchAfter, ht, if_true] at hvs
        exact Option.some.inj hvs
      have hfil : ((splitListOn ';' (params.search_after.getD "").data).filter
          (fun p => !p.isEmpty)) = [] := List.map_eq_nil_iff.mp hvs'
      rw [List.all_eq_true]
      intro p hp
      have hnp := List.filter_eq_nil_iff.mp hfil p hp
      simpa using hnp
    · have ht' : truthy params.search_after = false := by
        rcases Bool.eq_false_or_eq_true (truthy params.search_after) with h' | h'
        · exact absurd h' ht
        · exact h'
      rw [show AddSearchAfter d0 params = d0 by simp [AddSearchAfter, ht']] at hvs
      rw [hsan] at hvs
      exact absurd hvs (by simp)

/-- C6, witness for the amended theorem at a concrete count-plus-cursor
request. -/
theorem buildQuery_document_invariant_witness :
    QueryDocInvariant { count := some "brand_name", search_after := some "x=1" }
      ⟨none, [AggClause.terms { name := "count", field := "brand_name", size := none }],
       some ["1"]⟩ :=
  buildQuery_document_invariant
    { count := some "brand_name", search_after := some "x=1" }
    ⟨none, [AggClause.terms { name := "count", field := "brand_name", size := none }],
     some ["1"]⟩
    (by decide)

set_option maxRecDepth 16384 in
theorem buildQueryCore_count (params : QueryParams) (c : String)
    (hc : params.count = some c) (hcne : c.data ≠ [])
    (hsearch : ∀ s, params.search = some s → s.data ≠ [] → SupportedQueryString s = true) :
    ∃ qc, buildQueryCore params
      = Except.ok ⟨qc,
          if DATE_FIELDS.contains c = true then
            [AggClause.dateHistogram ⟨"histogram", c, "day", "_key", "asc", "yyyyMMdd", 1⟩]
          else
            [AggClause.terms ⟨"count", c, limitPlus1000 params.limit⟩],
          none⟩ := by
  have he : c.data.isEmpty = false := by simpa [List.isEmpty_iff] using hcne
  have hcount : truthy params.count = true := by simp [truthy, hc, he]
  have hmain : (!truthy params.search && !truthy params.count) = false := by
    simp [hcount]
  simp only [buildQueryCore, hmain, Bool.false_eq_true, if_false]
  by_cases hs : truthy params.search = true
  · obtain ⟨s, hss⟩ : ∃ s, params.search = some s := by
      cases hps : params.search with
      | none => rw [hps] at hs; exact absurd hs (by simp [truthy])
      | some s => exact ⟨s, rfl⟩
    have hsne : s.data ≠ [] := by
      rw [hss] at hs
      simp only [truthy, Bool.not_eq_true'] at hs
      simpa [List.isEmpty_iff] using hs
    have hsup := hsearch s hss hsne
    refine ⟨some (QueryClause.queryString (HandleDeprecatedClauses s)), ?_⟩
    rw [hss] at hs
    rw [hc] at hcount
    simp [hs, hss, hsup, hcount, hc]
  · refine ⟨none, ?_⟩
    have hs' : truthy params.search = false := by
      rcases Bool.eq_false_or_eq_true (truthy params.search) with h' | h'
      · exact absurd h' hs
      · exact h'
    rw [hc] at hcount
    simp [hs', hcount, hc]

/-- C7: for every params whose `count` is set (a non-empty string) and whose
`search`, if set, passes validation: when `count` is a member of the static
date-field set, `BuildQuery` produces a date-histogram aggregation bucketed
by calendar day, ordered ascending by bucket key, formatted `yyyyMMdd`,
excluding empty buckets (`minDocCount 1`); otherwise, for a positive integer
limit `L`, it produces a terms aggregation on the field with bucket size
`L + 1000`. -/
theorem buildQuery_count_aggregation (params : QueryParams) (c : String)
    (hc : params.count = some c) (hcne : c.data ≠ [])
    (hsearch : ∀ s, params.search = some s → s.data ≠ [] → SupportedQueryString s = true) :
    (DATE_FIELDS.contains c = true →
      ∃ doc, (BuildQuery params).1 = Except.ok doc ∧
        doc.aggs = [AggClause.dateHistogram
          { name := "histogram", field := c, interval := "day", orderKey := "_key",
            orderDir := "asc", format := "yyyyMMdd", minDocCount := 1 }]) ∧
    (∀ l L, DATE_FIELDS.contains c = false → params.limit = some l →
      jsParseInt l = some L → 0 < L →
      ∃ doc, (BuildQuery params).1 = Except.ok doc ∧
        doc.aggs = [AggClause.terms { name := "count", field := c, size := some (L + 1000) }]) := by
  obtain ⟨qc, hcore⟩ := buildQueryCore_count params c hc hcne hsearch
  constructor
  · intro hdate
    refine ⟨AddSearchAfter (⟨qc,
        if DATE_FIELDS.contains c = true then
          [AggClause.dateHistogram ⟨"histogram", c, "day", "_key", "asc", "yyyyMMdd", 1⟩]
        else
          [AggClause.terms ⟨"count", c, limitPlus1000 params.limit⟩],
        none⟩ : QueryDocument) params, ?_, ?_⟩
    · simp [BuildQuery, hcore]
    · rw [addSearchAfter_aggs]
      have hdate' : c ∈ DATE_FIELDS := by simpa using hdate
      simp [hdate']
  · intro l L hdate hl hL hpos
    refine ⟨AddSearchAfter (⟨qc,
        if DATE_FIELDS.contains c = true then
          [AggClause.dateHistogram ⟨"histogram", c, "day", "_key", "asc", "yyyyMMdd", 1⟩]
        else
          [AggClause.terms ⟨"count", c, limitPlus1000 params.limit⟩],
        none⟩ : QueryDocument) params, ?_, ?_⟩
    · simp [BuildQuery, hcore]
    · rw [addSearchAfter_aggs]
      have hdate' : c ∉ DATE_FIELDS := by simpa using hdate
      simp [hdate', limitPlus1000, hl, hL]

/-- C7, witness: `count = "report_date"` (a date field) yields the daily
date-histogram; `count = "brand_name"` with `limit = "10"` yields a terms
aggregation of size 1010. -/
theorem buildQuery_count_aggregation_witness :
    (∃ doc, (BuildQuery { count := some "report_date", limit := some "10" }).1
        = Except.ok doc ∧
      doc.aggs = [AggClause.dateHistogram
        { name := "histogram", field := "report_date", interval := "day",
          orderKey := "_key", orderDir := "asc", format := "yyyyMMdd",
          minDocCount := 1 }]) ∧
    (∃ doc, (BuildQuery { count := some "brand_name", limit := some "10" }).1
        = Except.ok doc ∧
      doc.aggs = [AggClause.terms
        { name := "count", field := "brand_name", size := some 1010 }]) := by
  constructor
  · exact (buildQuery_count_aggregation { count := some "report_date", limit := some "10" }
      "report_date" rfl (by decide) (fun s hs => absurd hs (by simp))).1 (by decide)
  · exact (buildQuery_count_aggregation { count := some "brand_name", limit := some "10" }
      "brand_name" rfl (by decide) (fun s hs => absurd hs (by simp))).2 "10" 10
      (by decide) rfl (by decide) (by decide)

/-- C9: when `search_after` is present (a non-empty cursor string, per JS
truthiness) and `BuildQuery` succeeds, the returned document's cursor is the
ordered sequence of values parsed from the `;`-delimited `key=value` cursor
(`"a=1;b=2"` yields `["1", "2"]` in parameter order); when `search_after` is
absent the document carries no cursor. -/
theorem buildQuery_search_after_cursor (params : QueryParams) :
    (∀ s doc, params.search_after = some s → s.data ≠ [] →
      (BuildQuery params).1 = Except.ok doc → doc.search_after = some (qsValues s)) ∧
    (∀ doc, params.search_after = none →
      (BuildQuery params).1 = Except.ok doc → doc.search_after = none) ∧
    qsValues "a=1;b=2" = ["1", "2"] := by
  refine ⟨?_, ?_, by decide⟩
  · intro s doc hsa hne h
    obtain ⟨d0, hcore, hdoc⟩ := buildQuery_ok_parts params doc h
    subst hdoc
    have he : s.data.isEmpty = false := by simpa [List.isEmpty_iff] using hne
    have ht : truthy (some s) = true := by simp [truthy, he]
    simp [AddSearchAfter, ht, hsa]
  · intro doc hsa h
    obtain ⟨d0, hcore, hdoc⟩ := buildQuery_ok_parts params doc h
    obtain ⟨_, _, _, hnone⟩ := buildQueryCore_ok params d0 hcore
    subst hdoc
    simp [AddSearchAfter, truthy, hsa, hnone]

/-- C9, witness: the present-cursor conjunct discharged at
`search_after = "a=1;b=2"`, whose produced document carries the cursor values
`["1", "2"]`. -/
theorem buildQuery_search_after_cursor_witness :
    (⟨some QueryClause.matchAll, [], some ["1", "2"]⟩ : QueryDocument).search_after
      = some (qsValues "a=1;b=2") :=
  (buildQuery_search_after_cursor { search_after := some "a=1;b=2" }).1 "a=1;b=2"
    ⟨some QueryClause.matchAll, [], some ["1", "2"]⟩ rfl (by decide) (by decide)
